import Mathlib

/-!
Verification development for mdbench (src/mdbench.py), a sequential
filesystem metadata benchmark.  The Python source is shallowly embedded:
pure numeric code over floats is modelled over the rationals, fallible
Python expressions return an Except value, and the wall clock consumed by
the timed wrappers is modelled by explicit state passing of a Clock value.
-/

/-- Python runtime errors that the embedded fragments can raise.
zeroDivision models ZeroDivisionError, valueError models the ValueError
raised by int() on a malformed literal, and invalidFormat models the
Exception raised explicitly by get_size. -/
inductive PyError where
  | zeroDivision
  | valueError
  | invalidFormat (msg : String)
deriving DecidableEq

/-- Embedding of class MovingAvg (mdbench.py lines 62-104).  Fields avg,
sigma, count, total correspond to the attributes of the Python object
named with a leading underscore; floats are modelled by rationals. -/
structure MovingAvg where
  avg : ℚ
  sigma : ℚ
  count : ℕ
  total : ℚ
deriving DecidableEq

/-- The state built by MovingAvg.__init__: all attributes zero. -/
def MovingAvg.init : MovingAvg := ⟨0, 0, 0, 0⟩

/-- Embedding of MovingAvg.update (lines 85-92):
avg becomes (avg * count + v) / (count + 1),
sigma becomes (sigma * count + v ** 2) / (count + 1),
count is incremented and total accumulates v. -/
def MovingAvg.update (m : MovingAvg) (v : ℚ) : MovingAvg :=
  { avg := (m.avg * m.count + v) / (m.count + 1)
    sigma := (m.sigma * m.count + v ^ 2) / (m.count + 1)
    count := m.count + 1
    total := m.total + v }

/-- Feed a whole list of samples to an accumulator, first element first. -/
def MovingAvg.updateAll (m : MovingAvg) (l : List ℚ) : MovingAvg :=
  l.foldl MovingAvg.update m

/-- The argument handed to math.sqrt inside MovingAvg.std (line 83):
self._sigma - self._avg ** 2. -/
def MovingAvg.stdArg (m : MovingAvg) : ℚ := m.sigma - m.avg ^ 2

/-- Embedding of MovingAvg.std (lines 79-83), math.sqrt(sigma - avg ** 2).
math.sqrt raises ValueError (math domain error) on a negative argument and
there is no clamping in the source.  Since the square root of a rational
is not rational, the ok branch carries the radicand sigma - avg ** 2; the
real result of std is its square root, which exists exactly when the ok
branch is taken, so the error behaviour is embedded exactly. -/
def MovingAvg.std (m : MovingAvg) : Except PyError ℚ :=
  if m.sigma - m.avg ^ 2 < 0 then .error .valueError
  else .ok (m.sigma - m.avg ^ 2)

/-- The throughput expression of report (lines 275-281):
counter.count() / counter.sum() * 10 ** 3.  Python true division raises
ZeroDivisionError when the denominator counter.sum() is zero; no guard is
present in the source. -/
def throughput (m : MovingAvg) : Except PyError ℚ :=
  if m.total = 0 then .error .zeroDivision
  else .ok (m.count / m.total * 1000)

/-- Filesystem calls issued by the timed operation wrappers, as far as the
claims need them. -/
inductive FsCall where
  | rename (src dst : String)
  | chmod (path : String) (mode : ℕ)
deriving DecidableEq

/-- Wall-clock state threaded through the timed wrappers; now is the value
datetime.now() would return, in milliseconds. -/
structure Clock where
  now : ℚ
deriving DecidableEq

/-- An os.rename call that consumes d milliseconds of wall time and
returns the call it performed together with the advanced clock. -/
def osRename (src dst : String) (d : ℚ) (c : Clock) : FsCall × Clock :=
  (.rename src dst, ⟨c.now + d⟩)

/-- Embedding of mvfile (lines 221-226).  d1 and d2 are the wall-time
costs of the two os.rename calls.  Following the source line by line:
start is read, the file is renamed to f_moved, the end timestamp is read,
the file is renamed back, and end - start is handed to mv_stats.update.
The result is (value fed to the accumulator, renames issued, final
clock). -/
def mvfile (f : String) (d1 d2 : ℚ) (c : Clock) : ℚ × List FsCall × Clock :=
  let start := c.now
  let r1 := osRename f (f ++ "_moved") d1 c
  let tEnd := r1.2.now
  let r2 := osRename (f ++ "_moved") f d2 r1.2
  (tEnd - start, [r1.1, r2.1], r2.2)

/-- Embedding of chmodfile (lines 215-219): the call os.chmod(f, 777)
with the decimal literal 777. -/
def chmodfile_call (f : String) : FsCall := .chmod f 777

/-- The benchmark phases orchestrated by main. -/
inductive Phase where
  | createDirs | createFiles | statFiles | chmodFiles | renameFiles
  | statDirs | removeFiles | removeDirs
deriving DecidableEq

/-- Embedding of the phase schedule of main (lines 347-368): dirs and
files are created and stat-ed, the chmod and rename phases run only under
extendedChecks, then dirs are stat-ed, and the removal phases run only
under cleanup. -/
def mainPhases (extendedChecks cleanup : Bool) : List Phase :=
  [.createDirs, .createFiles, .statFiles]
    ++ (if extendedChecks then [.chmodFiles, .renameFiles] else [])
    ++ [.statDirs]
    ++ (if cleanup then [.removeFiles, .removeDirs] else [])

-- Size parsing: embedding of get_size and its helpers.

/-- Multiplier B (line 54). -/
def B : ℕ := 1

/-- Multiplier K (line 55). -/
def K : ℕ := 1024

/-- Multiplier M (line 56). -/
def M : ℕ := K * K

/-- Multiplier G (line 57). -/
def G : ℕ := K * M

/-- The dictionary DATA_SIZES (line 59), as an association list. -/
def DATA_SIZES : List (String × ℕ) := [("b", B), ("k", K), ("m", M), ("g", G)]

/-- The constant string.digits of the Python standard library. -/
def STRING_DIGITS : String := "0123456789"

/-- Python substring membership needle in hay on character lists: the
empty needle is contained in every string, otherwise the needle must be a
contiguous subsequence. -/
def listSubstr : List Char → List Char → Bool
  | n, [] => n.isEmpty
  | n, c :: rest => n.isPrefixOf (c :: rest) || listSubstr n rest

/-- Python expression needle in hay on strings. -/
def pyInStr (needle hay : String) : Bool := listSubstr needle.data hay.data

/-- Python slice s[-1:]: the last character as a one-character string, or
the empty string when s is empty. -/
def lastSlice (s : String) : String := ⟨s.data.drop (s.data.length - 1)⟩

/-- Python slice s[:-1]: everything except the last character. -/
def dropLastSlice (s : String) : String := ⟨s.data.take (s.data.length - 1)⟩

/-- Python str.lower(), characterwise; ASCII suffices for this program. -/
def pyLower (s : String) : String := ⟨s.data.map Char.toLower⟩

/-- Value of a big-endian decimal digit string. -/
def digitsVal (l : List Char) : ℕ :=
  l.foldl (fun a c => 10 * a + (c.toNat - 48)) 0

/-- Python int() restricted to the nonnegative decimal literals this
program can feed it: a nonempty all-digit string parses to its value and
anything else, including the empty string, raises ValueError. -/
def pyInt (s : String) : Except PyError ℕ :=
  if !s.data.isEmpty && s.data.all Char.isDigit then .ok (digitsVal s.data)
  else .error .valueError

/-- Embedding of get_size (lines 116-125), following the source line by
line: take s[-1:].lower(); if it is contained in string.digits return
int(s); if it is not a key of DATA_SIZES raise the invalid-format
Exception; otherwise return int(s[:-1]) times the multiplier. -/
def get_size (s : String) : Except PyError ℕ :=
  let last_symbol := pyLower (lastSlice s)
  if pyInStr last_symbol STRING_DIGITS then pyInt s
  else
    match DATA_SIZES.lookup last_symbol with
    | none => .error (.invalidFormat s)
    | some mult => (pyInt (dropLastSlice s)).map (fun n => n * mult)

/-- Little-endian decimal digits of n, with explicit fuel to keep the
recursion structural; any fuel of at least n is enough. -/
def toDigitsRev (fuel n : ℕ) : List ℕ :=
  match fuel with
  | 0 => []
  | f + 1 => if n = 0 then [] else n % 10 :: toDigitsRev f (n / 10)

/-- Decimal representation of a natural number: the embedding of the
Python percent-d format used by the path generators. -/
def decRepr (n : ℕ) : String :=
  if n = 0 then "0" else ⟨((toDigitsRev n n).map Nat.digitChar).reverse⟩

-- Facts about decimal digit characters.

/-- Character code of a decimal digit character recovers the digit. -/
theorem digitChar_toNat (d : ℕ) (h : d < 10) :
    (Nat.digitChar d).toNat - 48 = d := by
  interval_cases d <;> decide

/-- Decimal digit characters satisfy isDigit. -/
theorem digitChar_isDigit (d : ℕ) (h : d < 10) :
    (Nat.digitChar d).isDigit = true := by
  interval_cases d <;> decide

/-- Lowercasing fixes decimal digit characters. -/
theorem digitChar_toLower (d : ℕ) (h : d < 10) :
    (Nat.digitChar d).toLower = Nat.digitChar d := by
  interval_cases d <;> decide

/-- Every decimal digit character occurs in string.digits. -/
theorem digitChar_in_digits (d : ℕ) (h : d < 10) :
    listSubstr [Nat.digitChar d] STRING_DIGITS.data = true := by
  interval_cases d <;> decide

/-- Appending one character multiplies the value by ten and adds the new
digit. -/
theorem digitsVal_append (l : List Char) (c : Char) :
    digitsVal (l ++ [c]) = 10 * digitsVal l + (c.toNat - 48) := by
  simp [digitsVal, List.foldl_append]

/-- All entries produced by toDigitsRev are below ten. -/
theorem toDigitsRev_lt (fuel : ℕ) :
    ∀ n, ∀ d ∈ toDigitsRev fuel n, d < 10 := by
  induction fuel with
  | zero => intro n d hd; simp [toDigitsRev] at hd
  | succ f ih =>
      intro n d hd
      by_cases hn : n = 0
      · simp [toDigitsRev, hn] at hd
      · simp only [toDigitsRev, if_neg hn, List.mem_cons] at hd
        rcases hd with h1 | h2
        · subst h1; exact Nat.mod_lt _ (by norm_num)
        · exact ih _ _ h2

/-- Reading back the reversed digit characters recovers the number. -/
theorem digitsVal_toDigitsRev (fuel : ℕ) : ∀ n ≤ fuel,
    digitsVal (((toDigitsRev fuel n).map Nat.digitChar).reverse) = n := by
  induction fuel with
  | zero =>
      intro n hn
      interval_cases n
      simp [toDigitsRev, digitsVal]
  | succ f ih =>
      intro n hn
      by_cases hn0 : n = 0
      · simp [toDigitsRev, hn0, digitsVal]
      · have hdiv : n / 10 ≤ f := by
          have h1 : n / 10 < n :=
            Nat.div_lt_self (Nat.pos_of_ne_zero hn0) (by norm_num)
          omega
        have hmod : n % 10 < 10 := Nat.mod_lt _ (by norm_num)
        calc digitsVal (((toDigitsRev (f + 1) n).map Nat.digitChar).reverse)
            = digitsVal
                ((((toDigitsRev f (n / 10)).map Nat.digitChar).reverse)
                  ++ [Nat.digitChar (n % 10)]) := by
              simp only [toDigitsRev, if_neg hn0, List.map_cons,
                List.reverse_cons]
          _ = 10 * (n / 10) + ((Nat.digitChar (n % 10)).toNat - 48) := by
              rw [digitsVal_append, ih _ hdiv]
          _ = n := by rw [digitChar_toNat _ hmod]; omega

/-- Reading the decimal representation back gives the number: decRepr has
a left inverse, hence is injective. -/
theorem decVal_decRepr (n : ℕ) : digitsVal (decRepr n).data = n := by
  by_cases h : n = 0
  · subst h; decide
  · simp only [decRepr, if_neg h]
    exact digitsVal_toDigitsRev n n le_rfl

/-- The decimal representation is injective. -/
theorem decRepr_inj : Function.Injective decRepr := by
  intro m n h
  have h2 := congrArg (fun s => digitsVal s.data) h
  simpa [decVal_decRepr] using h2

/-- Every character of a decimal representation is a digit. -/
theorem decRepr_all_digits (n : ℕ) :
    (decRepr n).data.all Char.isDigit = true := by
  by_cases h : n = 0
  · subst h; decide
  · simp only [decRepr, if_neg h]
    rw [List.all_eq_true]
    intro c hc
    rw [List.mem_reverse, List.mem_map] at hc
    obtain ⟨d, hd, rfl⟩ := hc
    exact digitChar_isDigit d (toDigitsRev_lt n n d hd)

/-- A decimal representation is never the empty string. -/
theorem decRepr_ne_nil (n : ℕ) : (decRepr n).data ≠ [] := by
  by_cases h : n = 0
  · subst h; decide
  · simp only [decRepr, if_neg h]
    obtain ⟨f, rfl⟩ : ∃ f, n = f + 1 := ⟨n - 1, by omega⟩
    simp [toDigitsRev]

/-- Python int() accepts every decimal representation and recovers the
number. -/
theorem pyInt_decRepr (n : ℕ) : pyInt (decRepr n) = .ok n := by
  have h1 := decRepr_ne_nil n
  have h2 := decRepr_all_digits n
  have h3 : (decRepr n).data.isEmpty = false := by
    cases hd : (decRepr n).data with
    | nil => exact absurd hd h1
    | cons a t => rfl
  simp [pyInt, h2, h3, decVal_decRepr n]

/-- The last-character slice of a string ending in c is the singleton c. -/
theorem lastSlice_append (A : List Char) (c : Char) :
    lastSlice ⟨A ++ [c]⟩ = ⟨[c]⟩ := by
  apply String.ext
  show (A ++ [c]).drop ((A ++ [c]).length - 1) = [c]
  have hlen : (A ++ [c]).length - 1 = A.length := by simp
  rw [hlen, List.drop_left]

/-- Dropping the last character of a string ending in c leaves the rest. -/
theorem dropLastSlice_append (A : List Char) (c : Char) :
    dropLastSlice ⟨A ++ [c]⟩ = ⟨A⟩ := by
  apply String.ext
  show (A ++ [c]).take ((A ++ [c]).length - 1) = A
  have hlen : (A ++ [c]).length - 1 = A.length := by simp
  rw [hlen, List.take_left]

/-- Evaluation of get_size on a string with last character c, by the
branch structure of the source. -/
theorem get_size_split (A : List Char) (c : Char) :
    get_size ⟨A ++ [c]⟩ =
      if pyInStr ⟨[c.toLower]⟩ STRING_DIGITS then pyInt ⟨A ++ [c]⟩
      else
        match DATA_SIZES.lookup (⟨[c.toLower]⟩ : String) with
        | none => .error (.invalidFormat ⟨A ++ [c]⟩)
        | some mult => (pyInt ⟨A⟩).map (fun n => n * mult) := by
  unfold get_size
  rw [lastSlice_append, dropLastSlice_append]
  rfl

/-- A singleton is a substring exactly when its character is a member. -/
theorem singleton_substr_mem (x : Char) (l : List Char) :
    listSubstr [x] l = true ↔ x ∈ l := by
  induction l with
  | nil => simp [listSubstr]
  | cons a rest ih =>
      simp [listSubstr, List.isPrefixOf, ih]

/-- Members of string.digits satisfy isDigit. -/
theorem mem_digits_isDigit (x : Char) (h : x ∈ STRING_DIGITS.data) :
    x.isDigit = true := by
  have hd : STRING_DIGITS.data =
      ['0', '1', '2', '3', '4', '5', '6', '7', '8', '9'] := rfl
  rw [hd] at h
  fin_cases h <;> decide

/-- Lookup in DATA_SIZES fails for every character that is not one of the
four size suffixes. -/
theorem lookup_sizes_none (x : Char) (hb : x ≠ 'b') (hk : x ≠ 'k')
    (hm : x ≠ 'm') (hg : x ≠ 'g') :
    DATA_SIZES.lookup (⟨[x]⟩ : String) = none := by
  have h1 : ((⟨[x]⟩ : String) == "b") = false := by
    simp only [beq_eq_false_iff_ne, ne_eq, String.ext_iff]; simpa using hb
  have h2 : ((⟨[x]⟩ : String) == "k") = false := by
    simp only [beq_eq_false_iff_ne, ne_eq, String.ext_iff]; simpa using hk
  have h3 : ((⟨[x]⟩ : String) == "m") = false := by
    simp only [beq_eq_false_iff_ne, ne_eq, String.ext_iff]; simpa using hm
  have h4 : ((⟨[x]⟩ : String) == "g") = false := by
    simp only [beq_eq_false_iff_ne, ne_eq, String.ext_iff]; simpa using hg
  simp [DATA_SIZES, List.lookup, h1, h2, h3, h4]

/-- A nonzero number has a decimal representation ending in the character
of its last digit. -/
theorem decRepr_succ (f : ℕ) :
    decRepr (f + 1) =
      ⟨((toDigitsRev f ((f + 1) / 10)).map Nat.digitChar).reverse
        ++ [Nat.digitChar ((f + 1) % 10)]⟩ := by
  simp only [decRepr, if_neg (Nat.succ_ne_zero f)]
  congr 1
  conv_lhs => rw [show toDigitsRev (f + 1) (f + 1) =
    (f + 1) % 10 :: toDigitsRev f ((f + 1) / 10) from by
      simp [toDigitsRev]]
  simp

/-- get_size applied to a canonical decimal numeral with a given suffix
multiplier character takes the multiplier branch. -/
theorem get_size_suffix (n : ℕ) (c : Char) (mult : ℕ)
    (hnd : listSubstr [c.toLower] STRING_DIGITS.data = false)
    (hlook : DATA_SIZES.lookup (⟨[c.toLower]⟩ : String) = some mult) :
    get_size (decRepr n ++ ⟨[c]⟩) = .ok (n * mult) := by
  have happ : decRepr n ++ (⟨[c]⟩ : String) = ⟨(decRepr n).data ++ [c]⟩ := by
    apply String.ext
    simp [String.data_append]
  rw [happ, get_size_split]
  have hin : pyInStr (⟨[c.toLower]⟩ : String) STRING_DIGITS = false := hnd
  rw [hin]
  simp only [Bool.false_eq_true, if_false, hlook]
  have heta : (⟨(decRepr n).data⟩ : String) = decRepr n := rfl
  rw [heta, pyInt_decRepr]
  rfl

/-- C5: get_size maps a canonical decimal numeral to its value, maps a
trailing suffix B, K, M, G to the multipliers 1, 1024, 1024 squared and
1024 cubed, raises the invalid-format error for every unrecognized
suffix character, and satisfies the five concrete examples of the spec. -/
theorem C5_size_parsing :
    (∀ n : ℕ, get_size (decRepr n) = .ok n) ∧
    (∀ n : ℕ,
      get_size (decRepr n ++ "B") = .ok (n * 1) ∧
      get_size (decRepr n ++ "K") = .ok (n * 1024) ∧
      get_size (decRepr n ++ "M") = .ok (n * (1024 * 1024)) ∧
      get_size (decRepr n ++ "G") = .ok (n * (1024 * 1024 * 1024))) ∧
    (∀ (s : String) (c : Char), c.toLower.isDigit = false →
      c.toLower ≠ 'b' → c.toLower ≠ 'k' → c.toLower ≠ 'm' →
      c.toLower ≠ 'g' →
      get_size (s.push c) = .error (.invalidFormat (s.push c))) ∧
    get_size "1K" = .ok 1024 ∧ get_size "256M" = .ok 268435456 ∧
    get_size "4G" = .ok 4294967296 ∧ get_size "512" = .ok 512 ∧
    get_size "5X" = .error (.invalidFormat "5X") := by
  refine ⟨?_, ?_, ?_, rfl, rfl, rfl, rfl, rfl⟩
  · intro n
    cases n with
    | zero => rfl
    | succ f =>
        rw [decRepr_succ f, get_size_split]
        have hmod : (f + 1) % 10 < 10 := Nat.mod_lt _ (by norm_num)
        rw [digitChar_toLower _ hmod]
        have hin : pyInStr ⟨[Nat.digitChar ((f + 1) % 10)]⟩ STRING_DIGITS
            = true := digitChar_in_digits _ hmod
        rw [if_pos hin, ← decRepr_succ f]
        exact pyInt_decRepr (f + 1)
  · intro n
    have hB := get_size_suffix n 'B' B (by decide) (by decide)
    have hK := get_size_suffix n 'K' K (by decide) (by decide)
    have hM := get_size_suffix n 'M' M (by decide) (by decide)
    have hG := get_size_suffix n 'G' G (by decide) (by decide)
    refine ⟨?_, ?_, ?_, ?_⟩
    · simpa [B] using hB
    · simpa [K] using hK
    · simpa [M, K] using hM
    · simpa [G, M, K] using hG
  · intro s c hdig hb hk hm hg
    have hpush : s.push c = ⟨s.data ++ [c]⟩ :=
      String.ext (by simp [String.data_push])
    rw [hpush, get_size_split]
    have hin : pyInStr ⟨[c.toLower]⟩ STRING_DIGITS = false := by
      show listSubstr [c.toLower] STRING_DIGITS.data = false
      cases hx : listSubstr [c.toLower] STRING_DIGITS.data with
      | false => rfl
      | true =>
          exact absurd
            (mem_digits_isDigit _ ((singleton_substr_mem _ _).1 hx))
            (by simp [hdig])
    simp only [hin, Bool.false_eq_true, if_false]
    rw [lookup_sizes_none c.toLower hb hk hm hg]

/-- C5 witness: the unrecognized-suffix branch of C5 at the concrete
input 5X, hypotheses checked by computation. -/
theorem C5_size_parsing_witness :
    ('X'.toLower.isDigit = false) ∧
    get_size (String.push "5" 'X') =
      .error (.invalidFormat (String.push "5" 'X')) :=
  ⟨by decide, C5_size_parsing.2.2.1 "5" 'X' (by decide) (by decide)
    (by decide) (by decide) (by decide)⟩

/-- C10 counterexample: get_size on the empty string does not raise the
invalid-format error, contrary to the claim. -/
theorem C10_cex : get_size "" ≠ .error (.invalidFormat "") := by
  rw [show get_size "" = Except.error PyError.valueError from rfl]
  simp

/-- C10 amended: the empty last-character slice of the empty string is a
substring of string.digits under the Python in operator, so get_size
takes the digit branch and int of the empty string raises ValueError;
the invalid-format branch is not reached and no index error occurs. -/
theorem C10_empty_value_error : get_size "" = .error .valueError := rfl

-- Namespace generation and phase iteration order.

/-- The directory name stem DIR (line 48). -/
def DIR : String := "dir."

/-- The file name stem FILE (line 49). -/
def FILE : String := "file."

/-- Embedding of gen_dir (line 51): base slash dir. followed by the
decimal ordinal. -/
def gen_dir (base : String) (gen : ℕ) : String :=
  base ++ "/" ++ DIR ++ decRepr gen

/-- Embedding of gen_file (line 52): base slash file. followed by the
decimal ordinal. -/
def gen_file (base : String) (gen : ℕ) : String :=
  base ++ "/" ++ FILE ++ decRepr gen

/-- The sequence of target paths touched by make_files (lines 133-142):
outer loop over the file ordinal, inner loop over the directory ordinal
when directories exist, otherwise files directly under the root. -/
def make_files_order (root : String) (dir_count file_count : ℕ) :
    List String :=
  (List.range file_count).flatMap fun j =>
    if dir_count > 0 then
      (List.range dir_count).map fun i => gen_file (gen_dir root i) j
    else [gen_file root j]

/-- The sequence of target paths touched by stat_files (lines 166-174);
the loop structure is identical to make_files, only the leaf operation
differs. -/
def stat_files_order (root : String) (dir_count file_count : ℕ) :
    List String :=
  (List.range file_count).flatMap fun j =>
    if dir_count > 0 then
      (List.range dir_count).map fun i => gen_file (gen_dir root i) j
    else [gen_file root j]

/-- The sequence of target paths touched by chmod_files (lines 176-184). -/
def chmod_files_order (root : String) (dir_count file_count : ℕ) :
    List String :=
  (List.range file_count).flatMap fun j =>
    if dir_count > 0 then
      (List.range dir_count).map fun i => gen_file (gen_dir root i) j
    else [gen_file root j]

/-- The sequence of target paths touched by mv_files (lines 186-194). -/
def mv_files_order (root : String) (dir_count file_count : ℕ) :
    List String :=
  (List.range file_count).flatMap fun j =>
    if dir_count > 0 then
      (List.range dir_count).map fun i => gen_file (gen_dir root i) j
    else [gen_file root j]

/-- The sequence of target paths touched by del_files (lines 144-152). -/
def del_files_order (root : String) (dir_count file_count : ℕ) :
    List String :=
  (List.range file_count).flatMap fun j =>
    if dir_count > 0 then
      (List.range dir_count).map fun i => gen_file (gen_dir root i) j
    else [gen_file root j]

/-- A flatMap of singletons is a map. -/
theorem flatMap_singleton_map {α β : Type} (f : α → β) (l : List α) :
    (l.flatMap fun x => [f x]) = l.map f := by
  induction l with
  | nil => rfl
  | cons a t ih => simp [List.flatMap_cons, ih]

/-- Closed form of the nested loop: block j of length D sits at offset
j times D, so position k holds the pair (k div D, k mod D). -/
theorem range_flatMap_closed {α : Type} (g : ℕ → ℕ → α) (D : ℕ)
    (hD : 0 < D) (F : ℕ) :
    ((List.range F).flatMap fun j => (List.range D).map (g j)) =
      (List.range (F * D)).map fun k => g (k / D) (k % D) := by
  induction F with
  | zero => simp
  | succ F ih =>
      rw [List.range_succ, List.flatMap_append, ih]
      have hFD : (F + 1) * D = F * D + D := by ring
      rw [hFD, List.range_add, List.map_append]
      congr 1
      rw [List.flatMap_singleton, List.map_map]
      apply List.map_congr_left
      intro k hk
      rw [List.mem_range] at hk
      have hdiv : (F * D + k) / D = F := by
        rw [Nat.mul_comm F D, Nat.mul_add_div hD, Nat.div_eq_of_lt hk,
          Nat.add_zero]
      have hmod : (F * D + k) % D = k := by
        rw [Nat.mul_comm F D, Nat.mul_add_mod, Nat.mod_eq_of_lt hk]
      simp [Function.comp, hdiv, hmod]

/-- C7: the five nested per-file phases share one iteration order; with
D positive the operation at position j * D + i targets file j in
directory i, so every operation on file ordinal j precedes every
operation on file ordinal j + 1; with D = 0 the files are processed
under the root in file-ordinal order. -/
theorem C7_nested_iteration :
    (∀ (root : String) (D F : ℕ),
      stat_files_order root D F = make_files_order root D F ∧
      chmod_files_order root D F = make_files_order root D F ∧
      mv_files_order root D F = make_files_order root D F ∧
      del_files_order root D F = make_files_order root D F) ∧
    (∀ (root : String) (D F : ℕ), 0 < D →
      make_files_order root D F =
        (List.range (F * D)).map fun k =>
          gen_file (gen_dir root (k % D)) (k / D)) ∧
    (∀ (root : String) (D F j i : ℕ), j < F → i < D →
      (make_files_order root D F)[j * D + i]? =
        some (gen_file (gen_dir root i) j)) ∧
    (∀ (root : String) (F : ℕ),
      make_files_order root 0 F = (List.range F).map (gen_file root)) := by
  have hmain : ∀ (root : String) (D F : ℕ), 0 < D →
      make_files_order root D F =
        (List.range (F * D)).map fun k =>
          gen_file (gen_dir root (k % D)) (k / D) := by
    intro root D F hD
    unfold make_files_order
    have hif : (fun j => if D > 0 then
        (List.range D).map fun i => gen_file (gen_dir root i) j
        else [gen_file root j]) =
        fun j => (List.range D).map fun i => gen_file (gen_dir root i) j := by
      funext j
      rw [if_pos hD]
    rw [hif, range_flatMap_closed (fun j i => gen_file (gen_dir root i) j)
      D hD F]
  refine ⟨?_, hmain, ?_, ?_⟩
  · intro root D F
    exact ⟨rfl, rfl, rfl, rfl⟩
  · intro root D F j i hj hi
    rw [hmain root D F (by omega)]
    have hidx : j * D + i < F * D := by
      have h1 : j * D + i < (j + 1) * D := by
        have : (j + 1) * D = j * D + D := by ring
        omega
      have h2 : (j + 1) * D ≤ F * D := Nat.mul_le_mul_right D hj
      omega
    rw [List.getElem?_map, List.getElem?_range hidx]
    have hdiv : (j * D + i) / D = j := by
      rw [Nat.mul_comm j D, Nat.mul_add_div (by omega), Nat.div_eq_of_lt hi,
        Nat.add_zero]
    have hmod : (j * D + i) % D = i := by
      rw [Nat.mul_comm j D, Nat.mul_add_mod, Nat.mod_eq_of_lt hi]
    simp [hdiv, hmod]
  · intro root F
    unfold make_files_order
    have hif : (fun j => if (0 : ℕ) > 0 then
        (List.range 0).map fun i => gen_file (gen_dir root i) j
        else [gen_file root j]) = fun j => [gen_file root j] := by
      funext j
      rw [if_neg (by omega)]
    rw [hif, flatMap_singleton_map]

/-- C7 witness: the index formula at root r with two directories and
three files, at file ordinal 1 and directory ordinal 1. -/
theorem C7_nested_iteration_witness :
    1 < 3 ∧ 1 < 2 ∧
    (make_files_order "r" 2 3)[1 * 2 + 1]? =
      some (gen_file (gen_dir "r" 1) 1) :=
  ⟨by norm_num, by norm_num,
    C7_nested_iteration.2.2.1 "r" 2 3 1 1 (by norm_num) (by norm_num)⟩

/-- No character of a decimal representation is a slash. -/
theorem decRepr_no_slash (n : ℕ) : ∀ c ∈ (decRepr n).data, c ≠ '/' := by
  intro c hc heq
  have hall := decRepr_all_digits n
  rw [List.all_eq_true] at hall
  subst heq
  exact absurd (hall _ hc) (by decide)

/-- Two slash-free prefixes followed by a slash split a list equality
into prefix and suffix equalities. -/
theorem slash_split (a : List Char) : ∀ (b u v : List Char),
    (∀ c ∈ a, c ≠ '/') → (∀ c ∈ b, c ≠ '/') →
    a ++ '/' :: u = b ++ '/' :: v → a = b ∧ u = v := by
  induction a with
  | nil =>
      intro b u v _ hb h
      cases b with
      | nil =>
          simp only [List.nil_append, List.cons.injEq, true_and] at h
          exact ⟨rfl, h⟩
      | cons y ys =>
          simp only [List.nil_append, List.cons_append,
            List.cons.injEq] at h
          exact absurd h.1.symm (hb y (List.mem_cons_self y ys))
  | cons x xs ih =>
      intro b u v ha hb h
      cases b with
      | nil =>
          simp only [List.cons_append, List.nil_append,
            List.cons.injEq] at h
          exact absurd h.1 (ha x (List.mem_cons_self x xs))
      | cons y ys =>
          simp only [List.cons_append, List.cons.injEq] at h
          obtain ⟨hxy, h2⟩ := h
          have hrec := ih ys u v
            (fun c hc => ha c (List.mem_cons_of_mem x hc))
            (fun c hc => hb c (List.mem_cons_of_mem y hc)) h2
          exact ⟨by rw [hxy, hrec.1], hrec.2⟩

/-- Character-list form of a nested file path. -/
theorem gen_file_data (root : String) (i j : ℕ) :
    (gen_file (gen_dir root i) j).data =
      root.data ++ '/' :: 'd' :: 'i' :: 'r' :: '.' ::
        ((decRepr i).data ++ '/' :: 'f' :: 'i' :: 'l' :: 'e' :: '.' ::
          (decRepr j).data) := by
  show ((root ++ "/" ++ DIR ++ decRepr i) ++ "/" ++ FILE
    ++ decRepr j).data = _
  simp only [String.data_append]
  rw [show DIR.data = ['d', 'i', 'r', '.'] from rfl,
    show FILE.data = ['f', 'i', 'l', 'e', '.'] from rfl]
  simp [List.append_assoc]

/-- Character-list form of a directory path. -/
theorem gen_dir_data (root : String) (i : ℕ) :
    (gen_dir root i).data =
      root.data ++ '/' :: 'd' :: 'i' :: 'r' :: '.' :: (decRepr i).data := by
  show (root ++ "/" ++ DIR ++ decRepr i).data = _
  simp only [String.data_append]
  rw [show DIR.data = ['d', 'i', 'r', '.'] from rfl]
  simp [List.append_assoc]

/-- Character-list form of a file path directly under a parent. -/
theorem gen_file_data_root (p : String) (j : ℕ) :
    (gen_file p j).data =
      p.data ++ '/' :: 'f' :: 'i' :: 'l' :: 'e' :: '.' :: (decRepr j).data := by
  show (p ++ "/" ++ FILE ++ decRepr j).data = _
  simp only [String.data_append]
  rw [show FILE.data = ['f', 'i', 'l', 'e', '.'] from rfl]
  simp [List.append_assoc]

/-- The map from (directory ordinal, file ordinal) to a nested file path
is injective. -/
theorem gen_file_pair_inj (root : String) :
    Function.Injective (fun p : ℕ × ℕ => gen_file (gen_dir root p.1) p.2) := by
  rintro ⟨i, j⟩ ⟨i2, j2⟩ h
  simp only at h
  have hd := congrArg String.data h
  rw [gen_file_data, gen_file_data] at hd
  have h1 := List.append_cancel_left hd
  simp only [List.cons.injEq, true_and] at h1
  have h2 := slash_split (decRepr i).data (decRepr i2).data _ _
    (decRepr_no_slash i) (decRepr_no_slash i2) h1
  have hi : i = i2 := decRepr_inj (String.ext h2.1)
  have h3 := h2.2
  simp only [List.cons.injEq, true_and] at h3
  have hj : j = j2 := decRepr_inj (String.ext h3)
  rw [hi, hj]

/-- The map from a directory ordinal to its path is injective. -/
theorem gen_dir_inj (root : String) : Function.Injective (gen_dir root) := by
  intro i i2 h
  have hd := congrArg String.data h
  rw [gen_dir_data, gen_dir_data] at hd
  have h1 := List.append_cancel_left hd
  simp only [List.cons.injEq, true_and] at h1
  exact decRepr_inj (String.ext h1)

/-- The map from a file ordinal to its path under a fixed parent is
injective. -/
theorem gen_file_root_inj (p : String) :
    Function.Injective (gen_file p) := by
  intro j j2 h
  have hd := congrArg String.data h
  rw [gen_file_data_root, gen_file_data_root] at hd
  have h1 := List.append_cancel_left hd
  simp only [List.cons.injEq, true_and] at h1
  exact decRepr_inj (String.ext h1)

/-- A directory path is never a nested file path under the same root. -/
theorem gen_dir_ne_gen_file (root : String) (i i2 j : ℕ) :
    gen_dir root i ≠ gen_file (gen_dir root i2) j := by
  intro h
  have hd := congrArg String.data h
  rw [gen_dir_data, gen_file_data] at hd
  have h1 := List.append_cancel_left hd
  simp only [List.cons.injEq, true_and] at h1
  have hmem : '/' ∈ (decRepr i).data := by
    rw [h1]
    exact List.mem_append_right _ (List.mem_cons_self _ _)
  exact decRepr_no_slash i '/' hmem rfl

/-- C8: the path generators are pure functions of root and ordinal with
the shapes root slash dir. ordinal and parent slash file. ordinal, and
for directory count D and file count F the generated namespace has
exactly D times F distinct nested file paths plus D distinct directory
paths disjoint from them, or F distinct file paths when files live
directly under the root. -/
theorem C8_namespace_paths :
    ∀ (root : String) (D F : ℕ),
      (∀ i, gen_dir root i = root ++ "/" ++ DIR ++ decRepr i) ∧
      (∀ p j, gen_file p j = p ++ "/" ++ FILE ++ decRepr j) ∧
      ((Finset.range D ×ˢ Finset.range F).image
        (fun p => gen_file (gen_dir root p.1) p.2)).card = D * F ∧
      ((Finset.range D).image (gen_dir root)).card = D ∧
      Disjoint
        ((Finset.range D ×ˢ Finset.range F).image
          (fun p => gen_file (gen_dir root p.1) p.2))
        ((Finset.range D).image (gen_dir root)) ∧
      ((Finset.range F).image (gen_file root)).card = F := by
  intro root D F
  refine ⟨fun i => rfl, fun p j => rfl, ?_, ?_, ?_, ?_⟩
  · rw [Finset.card_image_of_injective _ (gen_file_pair_inj root),
      Finset.card_product, Finset.card_range, Finset.card_range]
  · rw [Finset.card_image_of_injective _ (gen_dir_inj root),
      Finset.card_range]
  · rw [Finset.disjoint_left]
    intro x hx hx2
    rw [Finset.mem_image] at hx hx2
    obtain ⟨⟨i2, j⟩, _, hfile⟩ := hx
    obtain ⟨i, _, hdir⟩ := hx2
    exact gen_dir_ne_gen_file root i i2 j (hdir.trans hfile.symm)
  · rw [Finset.card_image_of_injective _ (gen_file_root_inj root),
      Finset.card_range]

-- Auxiliary facts about MovingAvg folds.

/-- Folding updates adds the length to count and the sum to total. -/
theorem updateAll_count_total (l : List ℚ) :
    ∀ m : MovingAvg, (m.updateAll l).count = m.count + l.length ∧
      (m.updateAll l).total = m.total + l.sum := by
  induction l with
  | nil => intro m; simp [MovingAvg.updateAll]
  | cons v t ih =>
      intro m
      have h := ih (m.update v)
      constructor
      · calc (m.updateAll (v :: t)).count
              = (m.update v).count + t.length := h.1
          _ = m.count + (v :: t).length := by
              simp [MovingAvg.update]; omega
      · calc (m.updateAll (v :: t)).total
              = (m.update v).total + t.sum := h.2
          _ = m.total + (v :: t).sum := by
              simp [MovingAvg.update]; ring

/-- C3: MovingAvg.update installs the online mean and mean-of-squares
formulas, increments count and accumulates total; consequently a fresh
accumulator fed N values ends with count N and total equal to their sum. -/
theorem C3_update_formulas :
    (∀ (m : MovingAvg) (v : ℚ),
      m.update v = ⟨(m.avg * m.count + v) / (m.count + 1),
        (m.sigma * m.count + v ^ 2) / (m.count + 1),
        m.count + 1, m.total + v⟩) ∧
    (∀ l : List ℚ, (MovingAvg.init.updateAll l).count = l.length ∧
      (MovingAvg.init.updateAll l).total = l.sum) := by
  constructor
  · intro m v; rfl
  · intro l
    have h := updateAll_count_total l MovingAvg.init
    simpa [MovingAvg.init] using h

/-- C1: a fresh accumulator (count = 0, total = 0) makes the throughput
expression of report raise ZeroDivisionError; the division count/total is
not guarded in the source. -/
theorem C1_zero_samples_division_fails :
    throughput MovingAvg.init = .error .zeroDivision := by
  simp [throughput, MovingAvg.init]

/-- C2 counterexample: with both renames costing one millisecond each, the
value fed to the rename accumulator is 1, not 1 + 1; the end timestamp is
taken between the two renames, so the timed unit does not cover both
legs. -/
theorem C2_cex : (mvfile "f" 1 1 ⟨0⟩).1 ≠ 1 + 1 := by
  norm_num [mvfile, osRename]

/-- C2 amended: mvfile performs both rename legs, but the value fed to the
rename accumulator is the duration of the first leg only; the clock
nevertheless advances by the cost of both legs. -/
theorem C2_first_leg_only :
    ∀ (f : String) (d1 d2 : ℚ) (c : Clock),
      (mvfile f d1 d2 c).1 = d1 ∧
      (mvfile f d1 d2 c).2.1 =
        [.rename f (f ++ "_moved"), .rename (f ++ "_moved") f] ∧
      (mvfile f d1 d2 c).2.2.now = c.now + d1 + d2 := by
  intro f d1 d2 c
  refine ⟨?_, rfl, ?_⟩
  · simp [mvfile, osRename]
  · simp [mvfile, osRename]

/-- C9: the chmod wrapper passes the decimal literal 777 as the mode,
which is octal 0o1411, not the octal value 0o777 = 511. -/
theorem C9_decimal_chmod_mode :
    ∀ f : String, chmodfile_call f = .chmod f 777 ∧
      (777 : ℕ) = 0o1411 ∧ (777 : ℕ) ≠ 0o777 := by
  intro f
  exact ⟨rfl, by norm_num, by norm_num⟩

/-- The radicand of std is preserved nonnegative by one update: the mean
of squares dominates the square of the mean. -/
theorem stdArg_update_nonneg (m : MovingAvg) (v : ℚ)
    (h : 0 ≤ m.stdArg) : 0 ≤ (m.update v).stdArg := by
  rcases m with ⟨a, s, n, t⟩
  simp only [MovingAvg.stdArg, MovingAvg.update] at h ⊢
  set c : ℚ := (n : ℚ) with hc
  have hc0 : (0 : ℚ) ≤ c := by positivity
  have hc1 : (0 : ℚ) < c + 1 := by positivity
  have hs : a ^ 2 ≤ s := by linarith
  have key : (a * c + v) ^ 2 ≤ (s * c + v ^ 2) * (c + 1) := by
    nlinarith [mul_nonneg hc0 (sq_nonneg (a - v)),
      mul_nonneg (mul_nonneg hc0 hc0) (sub_nonneg.2 hs),
      mul_nonneg hc0 (sub_nonneg.2 hs)]
  have h2 : ((a * c + v) / (c + 1)) ^ 2 ≤ (s * c + v ^ 2) / (c + 1) := by
    rw [div_pow, div_le_div_iff₀ (by positivity) hc1]
    calc (a * c + v) ^ 2 * (c + 1)
        ≤ ((s * c + v ^ 2) * (c + 1)) * (c + 1) :=
          mul_le_mul_of_nonneg_right key (le_of_lt hc1)
      _ = (s * c + v ^ 2) * (c + 1) ^ 2 := by ring
  linarith

/-- Every accumulator state reachable from a fresh accumulator has a
nonnegative std radicand. -/
theorem stdArg_reachable_nonneg (l : List ℚ) :
    0 ≤ (MovingAvg.init.updateAll l).stdArg := by
  suffices h : ∀ m : MovingAvg, 0 ≤ m.stdArg → 0 ≤ (m.updateAll l).stdArg by
    apply h
    simp [MovingAvg.init, MovingAvg.stdArg]
  induction l with
  | nil => intro m hm; simpa [MovingAvg.updateAll] using hm
  | cons v t ih =>
      intro m hm
      exact ih (m.update v) (stdArg_update_nonneg m v hm)

/-- C4 counterexample: on an accumulator state whose std radicand
sigma - avg ** 2 is negative, std fails with the math domain error; the
source contains no clamp and does not tolerate a negative argument. -/
theorem C4_cex :
    MovingAvg.stdArg ⟨1, 0, 1, 1⟩ < 0 ∧
    MovingAvg.std ⟨1, 0, 1, 1⟩ = .error .valueError := by
  constructor
  · norm_num [MovingAvg.stdArg]
  · simp only [MovingAvg.std]
    norm_num

/-- C4 amended: std computes sqrt(sigma - avg ** 2) with no clamping, and
math.sqrt fails on a negative argument; however, in exact arithmetic the
radicand is nonnegative for every accumulator state reachable from a
fresh accumulator, so the domain-error branch is unreachable absent
floating-point rounding. -/
theorem C4_std_domain_safe :
    ∀ l : List ℚ,
      0 ≤ (MovingAvg.init.updateAll l).stdArg ∧
      (MovingAvg.init.updateAll l).std =
        .ok ((MovingAvg.init.updateAll l).stdArg) := by
  intro l
  have h := stdArg_reachable_nonneg l
  refine ⟨h, ?_⟩
  simp only [MovingAvg.std, MovingAvg.stdArg] at h ⊢
  rw [if_neg (not_lt.2 h)]

/-- C6: the driver runs CreateDirs, CreateFiles, StatFiles, then ChmodFiles
and RenameFiles only under extended checks, then StatDirs, then
RemoveFiles and RemoveDirs only under cleanup; with cleanup disabled no
removal phase appears in the schedule. -/
theorem C6_phase_order :
    mainPhases false true =
      [.createDirs, .createFiles, .statFiles, .statDirs,
       .removeFiles, .removeDirs] ∧
    mainPhases true true =
      [.createDirs, .createFiles, .statFiles, .chmodFiles, .renameFiles,
       .statDirs, .removeFiles, .removeDirs] ∧
    mainPhases false false =
      [.createDirs, .createFiles, .statFiles, .statDirs] ∧
    mainPhases true false =
      [.createDirs, .createFiles, .statFiles, .chmodFiles, .renameFiles,
       .statDirs] ∧
    (∀ e : Bool, Phase.removeFiles ∉ mainPhases e false ∧
      Phase.removeDirs ∉ mainPhases e false) := by
  refine ⟨rfl, rfl, rfl, rfl, ?_⟩
  decide
